import Mathlib

/-!
Verification of the real-time connection registry and broadcast router of
`src/backend/core/websocket_service.py` (classes `ConnectionManager` and
`WebSocketService`).

Shallow embedding conventions:
- WebSocket handles are modelled as `Nat` identifiers; user ids are `Nat`.
- Python dicts are modelled as insertion-ordered association lists
  `List (Nat × _)`: a fresh key is appended at the end, an existing key is
  updated in place, deletion filters the key out.  This matches CPython
  dict semantics (insertion order preserved, update keeps position) as long
  as keys are unique, which every reachable state satisfies.
- `datetime.now()` is modelled by an explicit `now : Nat` clock argument.
- Transport writes (`websocket.send_text`) are modelled by a failure oracle
  `fails : Nat → Bool`: the write to connection `ws` raises iff `fails ws`.
  Message payloads are opaque to the registry (it never reads what it
  sends), so a delivery log records only the receiving connection ids.
-/

/-- Key lookup on a Python dict: the first (unique, in well-formed
states) entry with the given key. -/
def lookupA (m : List (Nat × α)) (k : Nat) : Option α :=
  (m.find? (fun p => p.1 == k)).map (fun p => p.2)

/-- Assignment `m[k] = v` on a Python dict: update in place if present,
append if fresh. -/
def setA : List (Nat × α) → Nat → α → List (Nat × α)
  | [], k, v => [(k, v)]
  | p :: rest, k, v =>
    if p.1 = k then (k, v) :: rest else p :: setA rest k v

/-- Deletion `del m[k]` on a Python dict. -/
def eraseA (m : List (Nat × α)) (k : Nat) : List (Nat × α) :=
  m.filter (fun p => p.1 ≠ k)

/-- Entry of `ConnectionManager.connection_metadata`: the dict built in
`connect` (lines 26-31).  The `subscriptions` key is absent initially and
is read with default `set()` wherever it is used, so it is modelled as a
list that starts empty. -/
structure Meta where
  user_id : Nat
  connection_type : String
  connected_at : Nat
  last_ping : Nat
  subscriptions : List String
deriving DecidableEq

/-- The two tables of `ConnectionManager` (lines 12-16):
`active_connections : Dict[int, List[WebSocket]]` and
`connection_metadata : Dict[WebSocket, Dict]`. -/
structure ManagerState where
  active_connections : List (Nat × List Nat)
  connection_metadata : List (Nat × Meta)
deriving DecidableEq

/-- Initial state built by `ConnectionManager.__init__`. -/
def emptyState : ManagerState := ⟨[], []⟩

/-- Model of `ConnectionManager.disconnect` (lines 42-54).  The Python
`list.remove` (line 49) removes the first occurrence; it can only raise
when the two tables are inconsistent, which no reachable state is, so it
is modelled as `List.erase`. -/
def disconnect (st : ManagerState) (ws : Nat) : ManagerState :=
  match lookupA st.connection_metadata ws with
  | none => st
  | some m =>
    let active' :=
      match lookupA st.active_connections m.user_id with
      | none => st.active_connections
      | some lst =>
        let lst' := lst.erase ws
        if lst' = [] then eraseA st.active_connections m.user_id
        else setA st.active_connections m.user_id lst'
    { active_connections := active',
      connection_metadata := eraseA st.connection_metadata ws }

/-- Model of `ConnectionManager.send_personal_message` (lines 56-62): try the
transport write; on exception log and `disconnect` the connection.
Returns the new state and whether the message was delivered. -/
def sendPersonalMessage (fails : Nat → Bool) (st : ManagerState) (ws : Nat) :
    ManagerState × Bool :=
  if fails ws then (disconnect st ws, false) else (st, true)

/-- Model of `ConnectionManager.send_personal_message` with the exception channel
made explicit: the body is `try: await websocket.send_text(...) except
Exception: log; self.disconnect(websocket)`.  The bare `except Exception`
catches every transport error, so the function always returns normally. -/
def sendPersonalMessageE (fails : Nat → Bool) (st : ManagerState) (ws : Nat) :
    Except String (ManagerState × Bool) :=
  match (if fails ws then Except.error "send failed" else Except.ok ()) with
  | Except.ok _ => Except.ok (st, true)
  | Except.error _ => Except.ok (disconnect st ws, false)

/-- Model of `ConnectionManager.connect` (lines 18-40): ensure the per-user list
exists, append the handle, write the metadata entry, then send the
welcome message (which, like every `send_personal_message`, disconnects
the handle if the write fails). -/
def connect (fails : Nat → Bool) (st : ManagerState) (ws user_id : Nat)
    (connection_type : String) (now : Nat) : ManagerState :=
  let lst := (lookupA st.active_connections user_id).getD []
  let meta' := setA st.connection_metadata ws
    ⟨user_id, connection_type, now, now, []⟩
  let st1 : ManagerState :=
    { active_connections := setA st.active_connections user_id (lst ++ [ws]),
      connection_metadata := meta' }
  (sendPersonalMessage fails st1 ws).1

/-- The loop `for websocket in connections_to_send` of `send_to_user`
when `connection_type` is falsy: `connections_to_send` is then the very
list object stored in `active_connections[user_id]`, so the loop iterates
(by index, as Python list iterators do) over a list that `disconnect`
mutates when a send fails.  `fuel` bounds the iteration count; the list
never grows during the loop, so the initial length is enough fuel. -/
def fanoutAliased (fails : Nat → Bool) (user_id : Nat) :
    Nat → Nat → ManagerState → List Nat → ManagerState × List Nat
  | 0, _, st, acc => (st, acc)
  | fuel + 1, i, st, acc =>
    let lst := (lookupA st.active_connections user_id).getD []
    if h : i < lst.length then
      let ws := lst.get ⟨i, h⟩
      let r := sendPersonalMessage fails st ws
      fanoutAliased fails user_id fuel (i + 1) r.1
        (acc ++ if r.2 then [ws] else [])
    else (st, acc)

/-- Model of `ConnectionManager.send_to_user` (lines 64-77).  The Python
`if connection_type:` is a truthiness test: `None` and `""` both take the
unfiltered branch, which iterates the aliased live list; a non-empty
filter string first builds a fresh filtered list, so that branch iterates
a snapshot. -/
def sendToUser (fails : Nat → Bool) (st : ManagerState) (user_id : Nat)
    (connection_type : Option String) : ManagerState × List Nat :=
  match lookupA st.active_connections user_id with
  | none => (st, [])
  | some lst =>
    match connection_type with
    | some c =>
      if c = "" then fanoutAliased fails user_id lst.length 0 st []
      else
        let snap := lst.filter (fun ws =>
          match lookupA st.connection_metadata ws with
          | some m => m.connection_type == c
          | none => false)
        snap.foldl
          (fun acc ws =>
            let r := sendPersonalMessage fails acc.1 ws
            (r.1, acc.2 ++ if r.2 then [ws] else []))
          (st, [])
    | none => fanoutAliased fails user_id lst.length 0 st []

/-- The skip test of `broadcast_to_all`,
`if exclude_user and user_id == exclude_user`, as a Boolean of the
visited user id: `None` and `0` are both falsy, so they skip nobody. -/
def skipOf (exclude_user : Option Nat) (u : Nat) : Bool :=
  match exclude_user with
  | some e => (e != 0) && (u == e)
  | none => false

def broadcastStep (fails : Nat → Bool) (exclude_user : Option Nat)
    (acc : ManagerState × List Nat) (u : Nat) : ManagerState × List Nat :=
  if skipOf exclude_user u then acc
  else
    let r := sendToUser fails acc.1 u none
    (r.1, acc.2 ++ r.2)

/-- Model of `ConnectionManager.broadcast_to_all` (lines 79-84): visit every user
entry, skipping the truthily-excluded one, and delegate to
`send_to_user`.  The dict is iterated as the snapshot of its items at
entry; CPython raises if a send failure deletes a user entry
mid-iteration, an execution this model does not represent (the claims
below use it only where no entry is deleted). -/
def broadcastToAll (fails : Nat → Bool) (st : ManagerState)
    (exclude_user : Option Nat) : ManagerState × List Nat :=
  (st.active_connections.map Prod.fst).foldl
    (broadcastStep fails exclude_user) (st, [])

/-- Model of `ConnectionManager.ping_connections` (lines 125-143): for each
metadata entry in order, try the write; on success set `last_ping` to the
current time, on failure collect the connection as dead; afterwards
`disconnect` every dead connection.  Mutating values during dict
iteration is legal in Python; keys are only deleted after the loop. -/
def pingConnections (fails : Nat → Bool) (st : ManagerState) (now : Nat) :
    ManagerState :=
  let meta' := st.connection_metadata.map (fun q =>
    if fails q.1 then q else (q.1, { q.2 with last_ping := now }))
  let dead := (st.connection_metadata.filter (fun q => fails q.1)).map Prod.fst
  dead.foldl (fun s ws => disconnect s ws)
    { st with connection_metadata := meta' }

/-- The update `connection_types[conn_type] =
connection_types.get(conn_type, 0) + 1` (line 153) on an
insertion-ordered dict. -/
def bump : List (String × Nat) → String → List (String × Nat)
  | [], k => [(k, 1)]
  | p :: rest, k =>
    if p.1 = k then (p.1, p.2 + 1) :: rest else p :: bump rest k

/-- Return value of `get_connection_stats` (lines 155-160). -/
structure Stats where
  total_connections : Nat
  unique_users : Nat
  connection_types : List (String × Nat)
  active_users : List Nat
deriving DecidableEq

/-- Model of `ConnectionManager.get_connection_stats` (lines 145-160). -/
def getConnectionStats (st : ManagerState) : Stats :=
  { total_connections := (st.active_connections.map (fun p => p.2.length)).sum,
    unique_users := st.active_connections.length,
    connection_types := st.connection_metadata.foldl
      (fun acc q => bump acc q.2.connection_type) [],
    active_users := st.active_connections.map Prod.fst }

/-- The fields of an inbound client message that `handle_message` reads:
`message.get("type")`, `message.get("subscription_type")`, the truthiness
of `message.get("data")`, and `data.get("task_id")` for collaboration
messages. -/
structure InMessage where
  mtype : Option String
  subscription_type : Option String
  data_truthy : Bool
  data_task_id : Option Nat
deriving DecidableEq

/-- Truthiness of an optional string (`if subscription_type:` etc.):
`None` and `""` are falsy. -/
def truthyStr : Option String → Bool
  | none => false
  | some s => s != ""

/-- Python set `add` on the modelled subscription list. -/
def addTag (l : List String) (s : String) : List String :=
  if s ∈ l then l else l ++ [s]

/-- Model of `WebSocketService.subscribe_to_updates` (lines 226-237): record the
tag and acknowledge over the same connection. -/
def subscribeToUpdates (fails : Nat → Bool) (st : ManagerState) (ws : Nat)
    (s : String) : ManagerState :=
  match lookupA st.connection_metadata ws with
  | none => st
  | some m =>
    let meta' := setA st.connection_metadata ws
      { m with subscriptions := addTag m.subscriptions s }
    let st1 : ManagerState := { st with connection_metadata := meta' }
    (sendPersonalMessage fails st1 ws).1

/-- Model of `WebSocketService.unsubscribe_from_updates` (lines 239-249). -/
def unsubscribeFromUpdates (fails : Nat → Bool) (st : ManagerState) (ws : Nat)
    (s : String) : ManagerState :=
  match lookupA st.connection_metadata ws with
  | none => st
  | some m =>
    let meta' := setA st.connection_metadata ws
      { m with subscriptions := m.subscriptions.erase s }
    let st1 : ManagerState := { st with connection_metadata := meta' }
    (sendPersonalMessage fails st1 ws).1

/-- Model of `WebSocketService.handle_message` (lines 190-224).  The `pong` branch
updates `last_ping`; `subscribe`/`unsubscribe` maintain the tag set and
acknowledge; `task_update` and `collaboration` re-broadcast to all
(via `broadcast_task_update` resp. `send_collaboration_update`); an
unknown kind is logged and ignored. -/
def handleMessage (fails : Nat → Bool) (st : ManagerState) (ws : Nat)
    (msg : InMessage) (now : Nat) : ManagerState :=
  if msg.mtype = some "pong" then
    let meta' := st.connection_metadata.map (fun q =>
      if q.1 == ws then (q.1, { q.2 with last_ping := now }) else q)
    { st with connection_metadata := meta' }
  else if msg.mtype = some "subscribe" then
    match msg.subscription_type with
    | some s => if s = "" then st else subscribeToUpdates fails st ws s
    | none => st
  else if msg.mtype = some "unsubscribe" then
    match msg.subscription_type with
    | some s => if s = "" then st else unsubscribeFromUpdates fails st ws s
    | none => st
  else if msg.mtype = some "task_update" then
    if msg.data_truthy then (broadcastToAll fails st none).1 else st
  else if msg.mtype = some "collaboration" then
    if msg.data_truthy then
      match msg.data_task_id with
      | some t => if t = 0 then st else (broadcastToAll fails st none).1
      | none => st
    else st
  else st

/-- One event seen by the receive loop of `handle_websocket`: either the
transport signals disconnect, or a text frame arrives whose `json.loads`
result is `none` (malformed JSON raises) or a parsed message. -/
inductive Inbound where
  | disconnectEvt : Inbound
  | raw : Option InMessage → Inbound
deriving DecidableEq

/-- The `while True` receive loop of `WebSocketService.handle_websocket`
(lines 175-188), driven by a finite prefix of inbound events (an empty
remainder means the loop is still awaiting the next frame).  The `try`
wraps the whole loop: `WebSocketDisconnect` and any other exception —
including the `json.loads` failure on malformed input — leave the loop
and `disconnect` the connection. -/
def receiveLoop (fails : Nat → Bool) (now : Nat) (ws : Nat) :
    ManagerState → List Inbound → ManagerState
  | st, [] => st
  | st, Inbound.disconnectEvt :: _ => disconnect st ws
  | st, Inbound.raw none :: _ => disconnect st ws
  | st, Inbound.raw (some msg) :: rest =>
    receiveLoop fails now ws (handleMessage fails st ws msg now) rest

/-- Model of `WebSocketService.handle_websocket` (lines 171-188): register, then
run the receive loop. -/
def handleWebsocket (fails : Nat → Bool) (st : ManagerState)
    (ws user_id : Nat) (connection_type : String) (now : Nat)
    (events : List Inbound) : ManagerState :=
  receiveLoop fails now ws (connect fails st ws user_id connection_type now)
    events

/-- A failure oracle under which every transport write succeeds. -/
def noFail : Nat → Bool := fun _ => false

/-! ### Association-list lemmas -/

/-- Keys of a modelled dict are pairwise distinct. -/
def NodupKeys (m : List (Nat × α)) : Prop := (m.map Prod.fst).Nodup

theorem lookupA_nil (k : Nat) : lookupA ([] : List (Nat × α)) k = none := rfl

theorem lookupA_cons (p : Nat × α) (m : List (Nat × α)) (k : Nat) :
    lookupA (p :: m) k = if p.1 = k then some p.2 else lookupA m k := by
  by_cases h : p.1 = k
  · have hb : (p.1 == k) = true := by simpa using h
    simp [lookupA, List.find?, hb, h]
  · have hb : (p.1 == k) = false := by simpa using h
    simp [lookupA, List.find?, hb, h]

theorem setA_nil (k : Nat) (v : α) : setA [] k v = [(k, v)] := rfl

theorem setA_cons (p : Nat × α) (m : List (Nat × α)) (k : Nat) (v : α) :
    setA (p :: m) k v =
      if p.1 = k then (k, v) :: m else p :: setA m k v := rfl

theorem eraseA_cons (p : Nat × α) (m : List (Nat × α)) (k : Nat) :
    eraseA (p :: m) k = if p.1 = k then eraseA m k else p :: eraseA m k := by
  by_cases h : p.1 = k <;> simp [eraseA, h]

theorem mem_eraseA {m : List (Nat × α)} {k : Nat} {q : Nat × α} :
    q ∈ eraseA m k ↔ q ∈ m ∧ q.1 ≠ k := by
  simp [eraseA, List.mem_filter]

theorem lookupA_eraseA_self (m : List (Nat × α)) (k : Nat) :
    lookupA (eraseA m k) k = none := by
  induction m with
  | nil => rfl
  | cons p rest ih =>
    rw [eraseA_cons]
    by_cases h : p.1 = k
    · rw [if_pos h]
      exact ih
    · rw [if_neg h, lookupA_cons, if_neg h]
      exact ih

theorem lookupA_eraseA_ne (m : List (Nat × α)) {k k2 : Nat} (h : k ≠ k2) :
    lookupA (eraseA m k) k2 = lookupA m k2 := by
  induction m with
  | nil => rfl
  | cons p rest ih =>
    rw [eraseA_cons]
    by_cases hp : p.1 = k
    · rw [if_pos hp, ih, lookupA_cons,
        if_neg (fun hk : p.1 = k2 => h (by rw [← hp, hk]))]
    · rw [if_neg hp, lookupA_cons, lookupA_cons, ih]

theorem lookupA_setA_self (m : List (Nat × α)) (k : Nat) (v : α) :
    lookupA (setA m k v) k = some v := by
  induction m with
  | nil => simp [setA_nil, lookupA_cons]
  | cons p rest ih =>
    rw [setA_cons]
    by_cases h : p.1 = k
    · rw [if_pos h, lookupA_cons, if_pos rfl]
    · rw [if_neg h, lookupA_cons, if_neg h]
      exact ih

theorem lookupA_setA_ne (m : List (Nat × α)) {k k2 : Nat} (v : α)
    (h : k ≠ k2) : lookupA (setA m k v) k2 = lookupA m k2 := by
  induction m with
  | nil => simp [setA_nil, lookupA_cons, lookupA_nil, h]
  | cons p rest ih =>
    rw [setA_cons]
    by_cases hp : p.1 = k
    · rw [if_pos hp, lookupA_cons, lookupA_cons, if_neg h, hp, if_neg h]
    · rw [if_neg hp, lookupA_cons, lookupA_cons, ih]

theorem self_mem_setA (m : List (Nat × α)) (k : Nat) (v : α) :
    (k, v) ∈ setA m k v := by
  induction m with
  | nil => simp [setA_nil]
  | cons p rest ih =>
    rw [setA_cons]
    by_cases h : p.1 = k
    · simp [h]
    · simp [h, ih]

theorem mem_setA_of_ne {m : List (Nat × α)} {k : Nat} {v : α} {q : Nat × α}
    (hq : q ∈ m) (hne : q.1 ≠ k) : q ∈ setA m k v := by
  induction m with
  | nil => simp at hq
  | cons p rest ih =>
    rw [setA_cons]
    by_cases h : p.1 = k
    · rw [if_pos h]
      rcases List.mem_cons.mp hq with rfl | hq2
      · exact absurd h hne
      · exact List.mem_cons_of_mem _ hq2
    · rw [if_neg h]
      rcases List.mem_cons.mp hq with rfl | hq2
      · exact List.mem_cons_self _ _
      · exact List.mem_cons_of_mem _ (ih hq2)

theorem mem_setA_weak {m : List (Nat × α)} {k : Nat} {v : α} {q : Nat × α}
    (hq : q ∈ setA m k v) : q = (k, v) ∨ q ∈ m := by
  induction m with
  | nil => simpa [setA_nil] using hq
  | cons p rest ih =>
    rw [setA_cons] at hq
    by_cases h : p.1 = k
    · rw [if_pos h] at hq
      rcases List.mem_cons.mp hq with rfl | hq2
      · exact Or.inl rfl
      · exact Or.inr (List.mem_cons_of_mem _ hq2)
    · rw [if_neg h] at hq
      rcases List.mem_cons.mp hq with rfl | hq2
      · exact Or.inr (List.mem_cons_self _ _)
      · rcases ih hq2 with h1 | h2
        · exact Or.inl h1
        · exact Or.inr (List.mem_cons_of_mem _ h2)

theorem nodupKeys_cons {p : Nat × α} {m : List (Nat × α)}
    (h : NodupKeys (p :: m)) : NodupKeys m ∧ p.1 ∉ m.map Prod.fst := by
  simp only [NodupKeys, List.map_cons, List.nodup_cons] at h
  exact ⟨h.2, h.1⟩

theorem mem_setA_nodup {m : List (Nat × α)} {k : Nat} {v : α} {q : Nat × α}
    (hnd : NodupKeys m) :
    q ∈ setA m k v ↔ q = (k, v) ∨ (q ∈ m ∧ q.1 ≠ k) := by
  constructor
  · intro hq
    induction m with
    | nil =>
      simp only [setA_nil, List.mem_singleton] at hq
      exact Or.inl hq
    | cons p rest ih =>
      obtain ⟨hr, hp⟩ := nodupKeys_cons hnd
      rw [setA_cons] at hq
      by_cases h : p.1 = k
      · rw [if_pos h] at hq
        rcases List.mem_cons.mp hq with rfl | hq2
        · exact Or.inl rfl
        · refine Or.inr ⟨List.mem_cons_of_mem _ hq2, fun hk => ?_⟩
          exact hp (h ▸ hk ▸ List.mem_map_of_mem Prod.fst hq2)
      · rw [if_neg h] at hq
        rcases List.mem_cons.mp hq with rfl | hq2
        · exact Or.inr ⟨List.mem_cons_self _ _, h⟩
        · rcases ih hr hq2 with h1 | ⟨h2, h3⟩
          · exact Or.inl h1
          · exact Or.inr ⟨List.mem_cons_of_mem _ h2, h3⟩
  · rintro (rfl | ⟨hq, hne⟩)
    · exact self_mem_setA m k v
    · exact mem_setA_of_ne hq hne

theorem mem_keys_setA {m : List (Nat × α)} {k a : Nat} {v : α}
    (h : a ∈ (setA m k v).map Prod.fst) : a ∈ m.map Prod.fst ∨ a = k := by
  rcases List.mem_map.mp h with ⟨q, hq, rfl⟩
  rcases mem_setA_weak hq with rfl | hq2
  · exact Or.inr rfl
  · exact Or.inl (List.mem_map_of_mem Prod.fst hq2)

theorem nodupKeys_setA {m : List (Nat × α)} {k : Nat} {v : α}
    (h : NodupKeys m) : NodupKeys (setA m k v) := by
  induction m with
  | nil => simp [NodupKeys, setA_nil]
  | cons p rest ih =>
    obtain ⟨hr, hp⟩ := nodupKeys_cons h
    rw [setA_cons]
    by_cases hpk : p.1 = k
    · rw [if_pos hpk]
      simp only [NodupKeys, List.map_cons, List.nodup_cons]
      exact ⟨hpk ▸ hp, hr⟩
    · rw [if_neg hpk]
      simp only [NodupKeys, List.map_cons, List.nodup_cons]
      refine ⟨fun hmem => ?_, ih hr⟩
      rcases mem_keys_setA hmem with h1 | h1
      · exact hp h1
      · exact hpk h1

theorem nodupKeys_eraseA {m : List (Nat × α)} {k : Nat}
    (h : NodupKeys m) : NodupKeys (eraseA m k) := by
  have hsub : List.Sublist ((eraseA m k).map Prod.fst) (m.map Prod.fst) :=
    List.Sublist.map Prod.fst (List.filter_sublist m)
  exact List.Nodup.sublist hsub h

theorem lookupA_of_mem {m : List (Nat × α)} {q : Nat × α}
    (hnd : NodupKeys m) (hq : q ∈ m) : lookupA m q.1 = some q.2 := by
  induction m with
  | nil => simp at hq
  | cons p rest ih =>
    obtain ⟨hr, hp⟩ := nodupKeys_cons hnd
    rcases List.mem_cons.mp hq with rfl | hq2
    · rw [lookupA_cons, if_pos rfl]
    · have hne : p.1 ≠ q.1 :=
        fun hk => hp (by rw [hk]; exact List.mem_map_of_mem Prod.fst hq2)
      rw [lookupA_cons, if_neg hne]
      exact ih hr hq2

theorem mem_of_lookupA {m : List (Nat × α)} {k : Nat} {v : α}
    (h : lookupA m k = some v) : (k, v) ∈ m := by
  simp only [lookupA, Option.map_eq_some'] at h
  obtain ⟨q, hfind, hv⟩ := h
  have hq := List.mem_of_find?_eq_some hfind
  have hpred := List.find?_some hfind
  have hk : q.1 = k := by simpa using hpred
  have : q = (k, v) := by
    cases q
    simp only at hk hv
    rw [hk, hv]
  rw [← this]
  exact hq

theorem forall_not_of_lookupA_eq_none {m : List (Nat × α)} {k : Nat}
    (h : lookupA m k = none) : ∀ q ∈ m, q.1 ≠ k := by
  intro q hq hk
  simp only [lookupA, Option.map_eq_none'] at h
  rw [List.find?_eq_none] at h
  exact absurd (by simpa using hk) (h q hq)

theorem eq_of_mem_nodupKeys {m : List (Nat × α)} {q1 q2 : Nat × α}
    (hnd : NodupKeys m) (h1 : q1 ∈ m) (h2 : q2 ∈ m) (hk : q1.1 = q2.1) :
    q1 = q2 := by
  have e1 := lookupA_of_mem hnd h1
  have e2 := lookupA_of_mem hnd h2
  rw [hk] at e1
  rw [e1] at e2
  cases q1
  cases q2
  simp only at hk
  simp only [Option.some.injEq] at e2
  simp [hk, e2]

/-! ### Case-analysis lemmas for the registry operations -/

theorem disconnect_of_meta_none {st : ManagerState} {ws : Nat}
    (h : lookupA st.connection_metadata ws = none) : disconnect st ws = st := by
  simp [disconnect, h]

theorem disconnect_of_user_none {st : ManagerState} {ws : Nat} {m : Meta}
    (h : lookupA st.connection_metadata ws = some m)
    (h2 : lookupA st.active_connections m.user_id = none) :
    disconnect st ws =
      ⟨st.active_connections, eraseA st.connection_metadata ws⟩ := by
  simp [disconnect, h, h2]

theorem disconnect_of_last {st : ManagerState} {ws : Nat} {m : Meta}
    {lst : List Nat} (h : lookupA st.connection_metadata ws = some m)
    (h2 : lookupA st.active_connections m.user_id = some lst)
    (h3 : lst.erase ws = []) :
    disconnect st ws =
      ⟨eraseA st.active_connections m.user_id,
        eraseA st.connection_metadata ws⟩ := by
  simp [disconnect, h, h2, h3]

theorem disconnect_of_mid {st : ManagerState} {ws : Nat} {m : Meta}
    {lst : List Nat} (h : lookupA st.connection_metadata ws = some m)
    (h2 : lookupA st.active_connections m.user_id = some lst)
    (h3 : lst.erase ws ≠ []) :
    disconnect st ws =
      ⟨setA st.active_connections m.user_id (lst.erase ws),
        eraseA st.connection_metadata ws⟩ := by
  simp [disconnect, h, h2, h3]

theorem eraseA_of_lookup_none {m : List (Nat × α)} {k : Nat}
    (h : lookupA m k = none) : eraseA m k = m := by
  rw [eraseA, List.filter_eq_self]
  intro q hq
  simpa using forall_not_of_lookupA_eq_none h q hq

/-- Whatever branch `disconnect` takes, the metadata table afterwards is
the old one with the key deleted. -/
theorem disconnect_meta (st : ManagerState) (ws : Nat) :
    (disconnect st ws).connection_metadata =
      eraseA st.connection_metadata ws := by
  cases hm : lookupA st.connection_metadata ws with
  | none => rw [disconnect_of_meta_none hm, eraseA_of_lookup_none hm]
  | some m =>
    cases ha : lookupA st.active_connections m.user_id with
    | none => rw [disconnect_of_user_none hm ha]
    | some lst =>
      by_cases h3 : lst.erase ws = []
      · rw [disconnect_of_last hm ha h3]
      · rw [disconnect_of_mid hm ha h3]

theorem connect_def (fails : Nat → Bool) (st : ManagerState)
    (ws u : Nat) (t : String) (now : Nat) :
    connect fails st ws u t now =
      (sendPersonalMessage fails
        ⟨setA st.active_connections u
            (((lookupA st.active_connections u).getD []) ++ [ws]),
          setA st.connection_metadata ws ⟨u, t, now, now, []⟩⟩ ws).1 := rfl

theorem sendPersonalMessage_of_ok {fails : Nat → Bool} {ws : Nat}
    (st : ManagerState) (h : fails ws = false) :
    sendPersonalMessage fails st ws = (st, true) := by
  simp [sendPersonalMessage, h]

theorem sendPersonalMessage_of_fail {fails : Nat → Bool} {ws : Nat}
    (st : ManagerState) (h : fails ws = true) :
    sendPersonalMessage fails st ws = (disconnect st ws, false) := by
  simp [sendPersonalMessage, h]

/-! ### Reachability and the no-empty-entry invariant -/

/-- No user entry in the forward table has an empty connection list. -/
def NoEmptyEntries (st : ManagerState) : Prop :=
  ∀ p ∈ st.active_connections, p.2 ≠ []

/-- States reachable from the empty registry by any sequence of
`connect` / `disconnect` calls (with arbitrary welcome-write outcomes). -/
inductive Reach : ManagerState → Prop where
  | init : Reach emptyState
  | stepConnect (fails : Nat → Bool) (st : ManagerState) (ws u : Nat)
      (t : String) (now : Nat) :
      Reach st → Reach (connect fails st ws u t now)
  | stepDisconnect (st : ManagerState) (ws : Nat) :
      Reach st → Reach (disconnect st ws)

theorem noEmptyEntries_disconnect {st : ManagerState} (ws : Nat)
    (h : NoEmptyEntries st) : NoEmptyEntries (disconnect st ws) := by
  cases hm : lookupA st.connection_metadata ws with
  | none => rw [disconnect_of_meta_none hm]; exact h
  | some m =>
    cases ha : lookupA st.active_connections m.user_id with
    | none =>
      rw [disconnect_of_user_none hm ha]
      intro p hp
      exact h p hp
    | some lst =>
      by_cases h3 : lst.erase ws = []
      · rw [disconnect_of_last hm ha h3]
        intro p hp
        exact h p (mem_eraseA.mp hp).1
      · rw [disconnect_of_mid hm ha h3]
        intro p hp
        rcases mem_setA_weak hp with rfl | hp2
        · exact h3
        · exact h p hp2

theorem noEmptyEntries_connect {st : ManagerState} (fails : Nat → Bool)
    (ws u : Nat) (t : String) (now : Nat) (h : NoEmptyEntries st) :
    NoEmptyEntries (connect fails st ws u t now) := by
  rw [connect_def]
  have h1 : NoEmptyEntries
      ⟨setA st.active_connections u
          (((lookupA st.active_connections u).getD []) ++ [ws]),
        setA st.connection_metadata ws ⟨u, t, now, now, []⟩⟩ := by
    intro p hp
    rcases mem_setA_weak hp with rfl | hp2
    · simp
    · exact h p hp2
  cases hf : fails ws with
  | false => rw [sendPersonalMessage_of_ok _ hf]; exact h1
  | true => rw [sendPersonalMessage_of_fail _ hf]; exact noEmptyEntries_disconnect ws h1

/-- Claim C1: starting from the empty registry, no sequence of
register/unregister operations produces a user entry whose connection
list is empty: `disconnect` deletes the entry the moment it empties. -/
theorem reach_no_empty_entries (st : ManagerState) (h : Reach st) :
    ∀ p ∈ st.active_connections, p.2 ≠ [] := by
  induction h with
  | init => intro p hp; simp [emptyState] at hp
  | stepConnect fails st ws u t now _ ih =>
    exact noEmptyEntries_connect fails ws u t now ih
  | stepDisconnect st ws _ ih => exact noEmptyEntries_disconnect ws ih

theorem reach_no_empty_entries_witness :
    ((7, [1]) : Nat × List Nat).2 ≠ [] :=
  reach_no_empty_entries (connect noFail emptyState 1 7 "general" 0)
    (Reach.stepConnect noFail emptyState 1 7 "general" 0 Reach.init)
    (7, [1]) (by decide)

/-- Claim C7: `disconnect` is idempotent on every registry state, and a
call on an unregistered connection is a no-op. -/
theorem disconnect_idempotent :
    ∀ (st : ManagerState) (ws : Nat),
      disconnect (disconnect st ws) ws = disconnect st ws ∧
      (lookupA st.connection_metadata ws = none → disconnect st ws = st) := by
  intro st ws
  constructor
  · apply disconnect_of_meta_none
    rw [disconnect_meta]
    exact lookupA_eraseA_self _ ws
  · exact disconnect_of_meta_none

theorem disconnect_idempotent_witness :
    disconnect emptyState 5 = emptyState :=
  (disconnect_idempotent emptyState 5).2 (by decide)

/-- Claim C6: `send_personal_message` never raises to its caller: the
explicit-exception model always returns `ok`, and a transport write
failure is converted into a `disconnect` of that connection. -/
theorem send_personal_message_never_raises :
    ∀ (fails : Nat → Bool) (st : ManagerState) (ws : Nat),
      sendPersonalMessageE fails st ws =
        Except.ok (sendPersonalMessage fails st ws) ∧
      (fails ws = true →
        sendPersonalMessage fails st ws = (disconnect st ws, false)) := by
  intro fails st ws
  constructor
  · cases hf : fails ws <;>
      simp [sendPersonalMessageE, sendPersonalMessage, hf]
  · intro hf
    exact sendPersonalMessage_of_fail st hf

theorem send_personal_message_never_raises_witness :
    sendPersonalMessage (fun _ => true) emptyState 3 =
      (disconnect emptyState 3, false) :=
  (send_personal_message_never_raises (fun _ => true) emptyState 3).2 rfl

/-- Claim C8: in every registry state, `get_connection_stats` reports
exactly the sum of the lengths of the per-user connection lists as
`total_connections` and the number of user entries as `unique_users`,
recomputed from the current tables. -/
theorem stats_from_current_state :
    ∀ st : ManagerState,
      (getConnectionStats st).total_connections =
        (st.active_connections.map (fun p => p.2.length)).sum ∧
      (getConnectionStats st).unique_users =
        st.active_connections.length := by
  intro st
  exact ⟨rfl, rfl⟩

/-! ### Mutual consistency of the two tables -/

/-- Well-formedness of a registry state: both tables have unique keys, no
connection is listed twice, every listed connection has a metadata entry
recording its owner, and every metadata entry points back into the
list of its owner. -/
def Consistent (st : ManagerState) : Prop :=
  NodupKeys st.active_connections ∧
  NodupKeys st.connection_metadata ∧
  (∀ p ∈ st.active_connections, p.2.Nodup) ∧
  (∀ p ∈ st.active_connections, ∀ ws ∈ p.2,
    ∃ q ∈ st.connection_metadata, q.1 = ws ∧ q.2.user_id = p.1) ∧
  (∀ q ∈ st.connection_metadata,
    ∃ p ∈ st.active_connections, p.1 = q.2.user_id ∧ q.1 ∈ p.2)

/-- Reachability where `connect` is only invoked on handles not currently
registered (the claim says no connection handle is registered twice). -/
inductive ReachFresh : ManagerState → Prop where
  | init : ReachFresh emptyState
  | stepConnect (fails : Nat → Bool) (st : ManagerState) (ws u : Nat)
      (t : String) (now : Nat) :
      ReachFresh st → lookupA st.connection_metadata ws = none →
      ReachFresh (connect fails st ws u t now)
  | stepDisconnect (st : ManagerState) (ws : Nat) :
      ReachFresh st → ReachFresh (disconnect st ws)

/-- A fresh handle appears in the connection list of no user. -/
theorem fresh_not_listed {st : ManagerState} {ws : Nat}
    (hcon : Consistent st)
    (hfresh : lookupA st.connection_metadata ws = none) :
    ∀ p ∈ st.active_connections, ws ∉ p.2 := by
  obtain ⟨_, _, _, hF, _⟩ := hcon
  intro p hp hws
  obtain ⟨q, hq, hq1, _⟩ := hF p hp ws hws
  exact forall_not_of_lookupA_eq_none hfresh q hq hq1

/-- A registered handle appears only in the connection list of its
owner. -/
theorem registered_only_in_owner {st : ManagerState} {ws : Nat} {m : Meta}
    (hcon : Consistent st)
    (hm : lookupA st.connection_metadata ws = some m) :
    ∀ p ∈ st.active_connections, p.1 ≠ m.user_id → ws ∉ p.2 := by
  obtain ⟨_, hM, _, hF, _⟩ := hcon
  intro p hp hne hws
  obtain ⟨q, hq, hq1, hq2⟩ := hF p hp ws hws
  have : q = (ws, m) :=
    eq_of_mem_nodupKeys hM hq (mem_of_lookupA hm) (by simpa using hq1)
  apply hne
  rw [← hq2, this]

theorem nodup_of_erase_eq_nil {lst : List Nat} {ws : Nat}
    (h : lst.erase ws = []) : ∀ x ∈ lst, x = ws := by
  intro x hx
  by_contra hne
  have : x ∈ lst.erase ws := (List.mem_erase_of_ne hne).mpr hx
  rw [h] at this
  simp at this

theorem ne_of_mem_erase {lst : List Nat} {ws x : Nat} (hnd : lst.Nodup)
    (hx : x ∈ lst.erase ws) : x ≠ ws := by
  intro rfl2
  rw [List.Nodup.erase_eq_filter hnd] at hx
  have := List.of_mem_filter hx
  simp [rfl2] at this

theorem consistent_disconnect {st : ManagerState} (ws : Nat)
    (hcon : Consistent st) : Consistent (disconnect st ws) := by
  obtain ⟨hA, hM, hN, hF, hB⟩ := hcon
  cases hm : lookupA st.connection_metadata ws with
  | none =>
    rw [disconnect_of_meta_none hm]
    exact ⟨hA, hM, hN, hF, hB⟩
  | some m =>
    have hmMem : (ws, m) ∈ st.connection_metadata := mem_of_lookupA hm
    cases ha : lookupA st.active_connections m.user_id with
    | none =>
      rw [disconnect_of_user_none hm ha]
      refine ⟨hA, nodupKeys_eraseA hM, hN, ?_, ?_⟩
      · intro p hp ws' hws'
        obtain ⟨q, hq, hq1, hq2⟩ := hF p hp ws' hws'
        have hps : lookupA st.active_connections p.1 = some p.2 :=
          lookupA_of_mem hA hp
        have hne : ws' ≠ ws := by
          intro hwseq
          have hqeq : q = (ws, m) :=
            eq_of_mem_nodupKeys hM hq hmMem (by rw [hq1, hwseq])
          rw [hqeq] at hq2
          simp only at hq2
          rw [hq2] at ha
          rw [ha] at hps
          exact Option.noConfusion hps
        exact ⟨q, mem_eraseA.mpr ⟨hq, by rw [hq1]; exact hne⟩, hq1, hq2⟩
      · intro q hq
        exact hB q (mem_eraseA.mp hq).1
    | some lst =>
      have hlstMem : (m.user_id, lst) ∈ st.active_connections :=
        mem_of_lookupA ha
      have hlstNodup : lst.Nodup := hN _ hlstMem
      have hother : ∀ p ∈ st.active_connections,
          p.1 ≠ m.user_id → ws ∉ p.2 :=
        registered_only_in_owner ⟨hA, hM, hN, hF, hB⟩ hm
      by_cases h3 : lst.erase ws = []
      · rw [disconnect_of_last hm ha h3]
        refine ⟨nodupKeys_eraseA hA, nodupKeys_eraseA hM, ?_, ?_, ?_⟩
        · intro p hp
          exact hN p (mem_eraseA.mp hp).1
        · intro p hp ws' hws'
          obtain ⟨hpm, hpk⟩ := mem_eraseA.mp hp
          obtain ⟨q, hq, hq1, hq2⟩ := hF p hpm ws' hws'
          have hne : ws' ≠ ws := fun rfl2 =>
            hother p hpm hpk (rfl2 ▸ hws')
          exact ⟨q, mem_eraseA.mpr ⟨hq, by rw [hq1]; exact hne⟩, hq1, hq2⟩
        · intro q hq
          obtain ⟨hqm, hqk⟩ := mem_eraseA.mp hq
          obtain ⟨p, hp, hp1, hp2⟩ := hB q hqm
          refine ⟨p, mem_eraseA.mpr ⟨hp, fun hpk => ?_⟩, hp1, hp2⟩
          have hpeq : p = (m.user_id, lst) :=
            eq_of_mem_nodupKeys hA hp hlstMem hpk
          apply hqk
          apply nodup_of_erase_eq_nil h3
          rw [hpeq] at hp2
          exact hp2
      · rw [disconnect_of_mid hm ha h3]
        refine ⟨nodupKeys_setA hA, nodupKeys_eraseA hM, ?_, ?_, ?_⟩
        · intro p hp
          rcases (mem_setA_nodup hA).mp hp with rfl | ⟨hp2, _⟩
          · exact List.Nodup.erase ws hlstNodup
          · exact hN p hp2
        · intro p hp ws' hws'
          rcases (mem_setA_nodup hA).mp hp with rfl | ⟨hp2, hpk⟩
          · have hws2 : ws' ∈ lst.erase ws := hws'
            have hws'lst : ws' ∈ lst := List.erase_subset ws lst hws2
            have hne : ws' ≠ ws := ne_of_mem_erase hlstNodup hws2
            obtain ⟨q, hq, hq1, hq2⟩ := hF _ hlstMem ws' hws'lst
            exact ⟨q, mem_eraseA.mpr ⟨hq, by rw [hq1]; exact hne⟩, hq1, hq2⟩
          · obtain ⟨q, hq, hq1, hq2⟩ := hF p hp2 ws' hws'
            have hne : ws' ≠ ws := fun rfl2 =>
              hother p hp2 hpk (rfl2 ▸ hws')
            exact ⟨q, mem_eraseA.mpr ⟨hq, by rw [hq1]; exact hne⟩, hq1, hq2⟩
        · intro q hq
          obtain ⟨hqm, hqk⟩ := mem_eraseA.mp hq
          obtain ⟨p, hp, hp1, hp2⟩ := hB q hqm
          by_cases hpk : p.1 = m.user_id
          · have hpeq : p = (m.user_id, lst) :=
              eq_of_mem_nodupKeys hA hp hlstMem hpk
            refine ⟨(m.user_id, lst.erase ws), self_mem_setA _ _ _, ?_, ?_⟩
            · rw [← hp1, hpk]
            · have hq1lst : q.1 ∈ lst := by
                have := hp2
                rw [hpeq] at this
                exact this
              exact (List.mem_erase_of_ne hqk).mpr hq1lst
          · exact ⟨p, mem_setA_of_ne hp hpk, hp1, hp2⟩

theorem consistent_connect_fresh {st : ManagerState} (fails : Nat → Bool)
    (ws u : Nat) (t : String) (now : Nat) (hcon : Consistent st)
    (hfresh : lookupA st.connection_metadata ws = none) :
    Consistent (connect fails st ws u t now) := by
  have hnl := fresh_not_listed hcon hfresh
  obtain ⟨hA, hM, hN, hF, hB⟩ := hcon
  rw [connect_def]
  set lst0 := (lookupA st.active_connections u).getD [] with hlst0
  have hlst0nd : lst0.Nodup := by
    cases hu : lookupA st.active_connections u with
    | none => simp [hlst0, hu]
    | some lst => rw [hlst0, hu]; exact hN _ (mem_of_lookupA hu)
  have hwslst0 : ws ∉ lst0 := by
    cases hu : lookupA st.active_connections u with
    | none => simp [hlst0, hu]
    | some lst => rw [hlst0, hu]; exact hnl _ (mem_of_lookupA hu)
  have hlst0mem : ∀ x ∈ lst0, ∀ P : Prop,
      ((u, lst0) ∈ st.active_connections → P) → P := by
    intro x hx P hP
    cases hu : lookupA st.active_connections u with
    | none => rw [hlst0, hu] at hx; simp at hx
    | some lst =>
      apply hP
      have : lst0 = lst := by rw [hlst0, hu]; rfl
      rw [this]
      exact mem_of_lookupA hu
  have h1 : Consistent
      ⟨setA st.active_connections u (lst0 ++ [ws]),
        setA st.connection_metadata ws ⟨u, t, now, now, []⟩⟩ := by
    refine ⟨nodupKeys_setA hA, nodupKeys_setA hM, ?_, ?_, ?_⟩
    · intro p hp
      rcases (mem_setA_nodup hA).mp hp with rfl | ⟨hp2, _⟩
      · simp only [List.nodup_append]
        exact ⟨hlst0nd, List.nodup_singleton ws, by simpa using hwslst0⟩
      · exact hN p hp2
    · intro p hp ws' hws'
      rcases (mem_setA_nodup hA).mp hp with rfl | ⟨hp2, hpk⟩
      · rcases List.mem_append.mp hws' with hin | hin
        · refine hlst0mem ws' hin _ (fun humem => ?_)
          obtain ⟨q, hq, hq1, hq2⟩ := hF _ humem ws' hin
          have hne : ws' ≠ ws := fun rfl2 => hwslst0 (rfl2 ▸ hin)
          exact ⟨q, mem_setA_of_ne hq (by rw [hq1]; exact hne), hq1, hq2⟩
        · have : ws' = ws := by simpa using hin
          subst this
          exact ⟨(ws', Meta.mk u t now now []), self_mem_setA _ _ _, rfl, rfl⟩
      · obtain ⟨q, hq, hq1, hq2⟩ := hF p hp2 ws' hws'
        have hne : ws' ≠ ws := fun rfl2 => hnl p hp2 (rfl2 ▸ hws')
        exact ⟨q, mem_setA_of_ne hq (by rw [hq1]; exact hne), hq1, hq2⟩
    · intro q hq
      rcases (mem_setA_nodup hM).mp hq with rfl | ⟨hq2, hqk⟩
      · exact ⟨(u, lst0 ++ [ws]), self_mem_setA _ _ _, rfl, by simp⟩
      · obtain ⟨p, hp, hp1, hp2⟩ := hB q hq2
        by_cases hpk : p.1 = u
        · have hps : lookupA st.active_connections p.1 = some p.2 :=
            lookupA_of_mem hA hp
          have hlst0p : lst0 = p.2 := by
            rw [hlst0, ← hpk, hps]
            rfl
          refine ⟨(u, lst0 ++ [ws]), self_mem_setA _ _ _, by rw [← hp1, hpk], ?_⟩
          apply List.mem_append.mpr
          left
          rw [hlst0p]
          exact hp2
        · exact ⟨p, mem_setA_of_ne hp hpk, hp1, hp2⟩
  cases hf : fails ws with
  | false => rw [sendPersonalMessage_of_ok _ hf]; exact h1
  | true =>
    rw [sendPersonalMessage_of_fail _ hf]
    exact consistent_disconnect ws h1

theorem consistent_empty : Consistent emptyState := by
  refine ⟨?_, ?_, ?_, ?_, ?_⟩ <;> simp [emptyState, NodupKeys]

theorem reachFresh_consistent (st : ManagerState) (h : ReachFresh st) :
    Consistent st := by
  induction h with
  | init => exact consistent_empty
  | stepConnect fails st ws u t now _ hfresh ih =>
    exact consistent_connect_fresh fails ws u t now ih hfresh
  | stepDisconnect st ws _ ih => exact consistent_disconnect ws ih

/-- Claim C5: along any run in which no connection handle is registered
twice, every connection listed under a user has a metadata entry with
that user id, and every metadata entry appears in the list of its
recorded user. -/
theorem registry_tables_mutually_consistent (st : ManagerState)
    (h : ReachFresh st) :
    (∀ p ∈ st.active_connections, ∀ ws ∈ p.2,
      ∃ q ∈ st.connection_metadata, q.1 = ws ∧ q.2.user_id = p.1) ∧
    (∀ q ∈ st.connection_metadata,
      ∃ p ∈ st.active_connections, p.1 = q.2.user_id ∧ q.1 ∈ p.2) := by
  obtain ⟨_, _, _, hF, hB⟩ := reachFresh_consistent st h
  exact ⟨hF, hB⟩

theorem registry_tables_mutually_consistent_witness :
    ∃ q ∈ (connect noFail emptyState 1 7 "general" 0).connection_metadata,
      q.1 = 1 ∧ q.2.user_id = 7 :=
  (registry_tables_mutually_consistent
      (connect noFail emptyState 1 7 "general" 0)
      (ReachFresh.stepConnect noFail emptyState 1 7 "general" 0
        ReachFresh.init (by decide))).1
    (7, [1]) (by decide) 1 (by decide)

/-! ### Per-channel counts and the total (claim C10) -/

theorem bump_cons (p : String × Nat) (m : List (String × Nat)) (k : String) :
    bump (p :: m) k =
      if p.1 = k then (p.1, p.2 + 1) :: m else p :: bump m k := rfl

theorem bump_sum (m : List (String × Nat)) (k : String) :
    ((bump m k).map Prod.snd).sum = (m.map Prod.snd).sum + 1 := by
  induction m with
  | nil => simp [bump]
  | cons p rest ih =>
    by_cases h : p.1 = k
    · rw [bump_cons, if_pos h]
      simp only [List.map_cons, List.sum_cons]
      omega
    · rw [bump_cons, if_neg h]
      simp only [List.map_cons, List.sum_cons, ih]
      omega

theorem foldl_bump_sum (l : List (Nat × Meta)) :
    ∀ acc : List (String × Nat),
      ((l.foldl (fun acc q => bump acc q.2.connection_type) acc).map
          Prod.snd).sum =
        (acc.map Prod.snd).sum + l.length := by
  induction l with
  | nil => intro acc; simp
  | cons q rest ih =>
    intro acc
    simp only [List.foldl_cons, List.length_cons, ih, bump_sum]
    omega

instance (st : ManagerState) : Decidable (Consistent st) := by
  unfold Consistent NodupKeys
  infer_instance

/-- Under consistency, the metadata table has exactly one entry per list
slot: its size equals the sum of the per-user list lengths. -/
theorem consistent_meta_count {st : ManagerState} (hcon : Consistent st) :
    st.connection_metadata.length =
      (st.active_connections.map (fun p => p.2.length)).sum := by
  obtain ⟨hA, hM, hN, hF, hB⟩ := hcon
  set L := st.active_connections.map Prod.snd with hL
  have hsum : (st.active_connections.map (fun p => p.2.length)).sum =
      L.flatten.length := by
    rw [List.length_flatten, hL, List.map_map]
    rfl
  have hndL : L.flatten.Nodup := by
    rw [List.nodup_flatten]
    constructor
    · intro l hl
      rcases List.mem_map.mp hl with ⟨p, hp, rfl⟩
      exact hN p hp
    · rw [hL, List.pairwise_map]
      have hkeys : st.active_connections.Pairwise
          (fun p q => p.1 ≠ q.1) := by
        have := hA
        rw [NodupKeys, List.Nodup, List.pairwise_map] at this
        exact this
      refine List.Pairwise.imp_of_mem ?_ hkeys
      intro p q hp hq hne x hxp hxq
      obtain ⟨q1, hq1, hq11, hq12⟩ := hF p hp x hxp
      obtain ⟨q2, hq2, hq21, hq22⟩ := hF q hq x hxq
      have : q1 = q2 :=
        eq_of_mem_nodupKeys hM hq1 hq2 (by rw [hq11, hq21])
      apply hne
      rw [← hq12, ← hq22, this]
  have hndK : (st.connection_metadata.map Prod.fst).Nodup := hM
  have hmem : ∀ a, a ∈ L.flatten ↔
      a ∈ st.connection_metadata.map Prod.fst := by
    intro a
    constructor
    · intro ha
      rcases List.mem_flatten.mp ha with ⟨l, hl, hal⟩
      rcases List.mem_map.mp hl with ⟨p, hp, rfl⟩
      obtain ⟨q, hq, hq1, _⟩ := hF p hp a hal
      rw [← hq1]
      exact List.mem_map_of_mem Prod.fst hq
    · intro ha
      rcases List.mem_map.mp ha with ⟨q, hq, rfl⟩
      obtain ⟨p, hp, _, hp2⟩ := hB q hq
      exact List.mem_flatten_of_mem (List.mem_map_of_mem Prod.snd hp) hp2
  have hperm : L.flatten.Perm (st.connection_metadata.map Prod.fst) :=
    (List.perm_ext_iff_of_nodup hndL hndK).mpr hmem
  have hlen := hperm.length_eq
  rw [List.length_map] at hlen
  rw [hsum, hlen]

/-- Claim C10: in every consistent registry state, the per-channel-kind
counts of `get_connection_stats` sum to its `total_connections`: each
registered connection is counted under exactly one `connection_type`. -/
theorem connection_type_counts_sum_to_total (st : ManagerState)
    (hcon : Consistent st) :
    (((getConnectionStats st).connection_types).map Prod.snd).sum =
      (getConnectionStats st).total_connections := by
  have h1 : (((getConnectionStats st).connection_types).map Prod.snd).sum =
      st.connection_metadata.length := by
    have := foldl_bump_sum st.connection_metadata []
    simpa [getConnectionStats] using this
  rw [h1]
  have h2 := consistent_meta_count hcon
  rw [h2]
  rfl

theorem connection_type_counts_sum_to_total_witness :
    (((getConnectionStats
        ⟨[(7, [1, 2])],
          [(1, ⟨7, "tasks", 0, 0, []⟩),
            (2, ⟨7, "general", 0, 0, []⟩)]⟩).connection_types).map
        Prod.snd).sum =
      (getConnectionStats
        ⟨[(7, [1, 2])],
          [(1, ⟨7, "tasks", 0, 0, []⟩),
            (2, ⟨7, "general", 0, 0, []⟩)]⟩).total_connections :=
  connection_type_counts_sum_to_total _ (by decide)

/-! ### Liveness probe and the last-ping timestamp (claim C3) -/

theorem pingConnections_def (fails : Nat → Bool) (st : ManagerState)
    (now : Nat) :
    pingConnections fails st now =
      ((st.connection_metadata.filter (fun q => fails q.1)).map
          Prod.fst).foldl (fun s ws => disconnect s ws)
        { st with connection_metadata := st.connection_metadata.map (fun q =>
            if fails q.1 then q
            else (q.1, { q.2 with last_ping := now })) } := rfl

theorem lookupA_map_cond (c : Nat → Bool) (f : Meta → Meta) {k : Nat}
    {v : Meta} (hc : c k = true) :
    ∀ m : List (Nat × Meta), lookupA m k = some v →
      lookupA (m.map (fun q => if c q.1 then (q.1, f q.2) else q)) k =
        some (f v) := by
  intro m
  induction m with
  | nil => intro h; rw [lookupA_nil] at h; exact Option.noConfusion h
  | cons p rest ih =>
    intro h
    rw [lookupA_cons] at h
    by_cases hp : p.1 = k
    · rw [if_pos hp] at h
      have hv : p.2 = v := Option.some.inj h
      have hhead : (if c p.1 then (p.1, f p.2) else p) = (p.1, f p.2) := by
        rw [hp, hc]
        simp
      simp only [List.map_cons, hhead]
      rw [lookupA_cons, if_pos hp, hv]
    · rw [if_neg hp] at h
      have hkey : (if c p.1 then (p.1, f p.2) else p).1 = p.1 := by
        cases c p.1 <;> simp
      simp only [List.map_cons]
      rw [lookupA_cons]
      simp only [hkey]
      rw [if_neg hp]
      exact ih h

theorem lookupA_meta_disconnect_ne (st : ManagerState) {ws ws2 : Nat}
    (h : ws2 ≠ ws) :
    lookupA (disconnect st ws2).connection_metadata ws =
      lookupA st.connection_metadata ws := by
  rw [disconnect_meta]
  exact lookupA_eraseA_ne _ h

theorem foldl_disconnect_meta_lookup (dead : List Nat) :
    ∀ (st : ManagerState) (ws : Nat), ws ∉ dead →
      lookupA
          ((dead.foldl (fun s w => disconnect s w) st).connection_metadata)
          ws =
        lookupA st.connection_metadata ws := by
  induction dead with
  | nil => intro st ws _; rfl
  | cons d rest ih =>
    intro st ws h
    simp only [List.foldl_cons]
    rw [ih _ _ (fun hm => h (List.mem_cons_of_mem _ hm))]
    exact lookupA_meta_disconnect_ne st
      (fun hd => h (hd ▸ List.mem_cons_self d rest))

/-- Claim C3 (amended): a connection whose ping write succeeds has its
last-liveness-response timestamp set to the time of the ping (the code
refreshes `last_ping` on send success, line 136); a subsequent pong also
sets it to the time of handling. -/
theorem ping_success_sets_last_ping :
    ∀ (fails : Nat → Bool) (st : ManagerState) (ws : Nat) (m : Meta)
      (now : Nat),
      lookupA st.connection_metadata ws = some m → fails ws = false →
      lookupA (pingConnections fails st now).connection_metadata ws =
          some { m with last_ping := now } ∧
        lookupA (handleMessage fails st ws
              ⟨some "pong", none, false, none⟩ now).connection_metadata ws =
          some { m with last_ping := now } := by
  intro fails st ws m now hlook hok
  constructor
  · rw [pingConnections_def]
    have hdead : ws ∉ (st.connection_metadata.filter
        (fun q => fails q.1)).map Prod.fst := by
      intro hmem
      rcases List.mem_map.mp hmem with ⟨q, hq, rfl⟩
      have := List.of_mem_filter hq
      rw [hok] at this
      exact Bool.noConfusion this
    rw [foldl_disconnect_meta_lookup _ _ _ hdead]
    have hshape : st.connection_metadata.map (fun q =>
          if fails q.1 then q
          else (q.1, { q.2 with last_ping := now })) =
        st.connection_metadata.map (fun q =>
          if !fails q.1 then (q.1, { q.2 with last_ping := now }) else q) := by
      apply List.map_congr_left
      intro q _
      cases hf : fails q.1 <;> simp [hf]
    simp only
    rw [hshape]
    exact lookupA_map_cond (fun n => !fails n)
      (fun mm => { mm with last_ping := now }) (by simp [hok])
      st.connection_metadata hlook
  · have hpong : handleMessage fails st ws
        ⟨some "pong", none, false, none⟩ now =
        { st with connection_metadata := st.connection_metadata.map (fun q =>
            if q.1 == ws then (q.1, { q.2 with last_ping := now })
            else q) } := rfl
    rw [hpong]
    exact lookupA_map_cond (fun n => n == ws)
      (fun mm => { mm with last_ping := now }) (by simp)
      st.connection_metadata hlook

theorem ping_success_sets_last_ping_witness :
    lookupA (pingConnections noFail
          ⟨[(5, [1])], [(1, ⟨5, "general", 0, 0, []⟩)]⟩
          9).connection_metadata 1 =
        some { (⟨5, "general", 0, 0, []⟩ : Meta) with last_ping := 9 } ∧
      lookupA (handleMessage noFail
            ⟨[(5, [1])], [(1, ⟨5, "general", 0, 0, []⟩)]⟩ 1
            ⟨some "pong", none, false, none⟩ 9).connection_metadata 1 =
        some { (⟨5, "general", 0, 0, []⟩ : Meta) with last_ping := 9 } :=
  ping_success_sets_last_ping noFail
    ⟨[(5, [1])], [(1, ⟨5, "general", 0, 0, []⟩)]⟩ 1
    ⟨5, "general", 0, 0, []⟩ 9 (by decide) rfl

/-- Claim C3 counterexample: in a one-connection registry with
`last_ping = 0`, a probe cycle at time 9 whose write succeeds leaves
`last_ping = 9`, not 0 — the timestamp does not stay untouched until a
pong arrives. -/
theorem ping_success_changes_last_ping :
    (lookupA (pingConnections noFail
          ⟨[(5, [1])], [(1, ⟨5, "general", 0, 0, []⟩)]⟩
          9).connection_metadata 1).map Meta.last_ping = some 9 ∧
      (9 : Nat) ≠ 0 := by
  constructor
  · rfl
  · decide

/-! ### Receive loop on malformed input (claim C4) -/

/-- Claim C4 (amended): an inbound frame that fails JSON parsing raises
out of the `while` loop into the outer `except` handler: the error is
logged, the connection is unregistered, and the loop exits — it does not
stay open.  Whatever the prior state, the connection is absent from the
metadata table afterwards. -/
theorem malformed_json_exits_and_unregisters :
    ∀ (fails : Nat → Bool) (now ws : Nat) (st : ManagerState)
      (rest : List Inbound),
      receiveLoop fails now ws st (Inbound.raw none :: rest) =
          disconnect st ws ∧
        lookupA (disconnect st ws).connection_metadata ws = none := by
  intro fails now ws st rest
  constructor
  · rfl
  · rw [disconnect_meta]
    exact lookupA_eraseA_self _ _

/-- Claim C4 counterexample: register connection 1 for user 7, then feed
one malformed frame: the connection ends up unregistered (the registry no
longer knows handle 1), though it was registered right after connect. -/
theorem malformed_json_closes_connection :
    lookupA (handleWebsocket noFail emptyState 1 7 "general" 0
        [Inbound.raw none]).connection_metadata 1 = none ∧
      lookupA (connect noFail emptyState 1 7 "general"
          0).connection_metadata 1 ≠ none := by
  constructor
  · rfl
  · decide

/-! ### Fan-out under a failing connection (claim C2) -/

/-- Claim C2 failing input: user 7 has connections [1, 2, 3] and the
write to connection 1 fails.  `connections_to_send` aliases the live
list, whose first element `disconnect` removes mid-iteration, so the
index-based loop skips connection 2: only connection 3 receives the
message, while connection 2 stays registered and never gets it.  The
claimed behaviour (both 2 and 3 receive) does not hold. -/
theorem send_to_user_skips_connection_after_failure :
    (sendToUser (fun ws => ws == 1)
        ⟨[(7, [1, 2, 3])],
          [(1, ⟨7, "general", 0, 0, []⟩), (2, ⟨7, "general", 0, 0, []⟩),
            (3, ⟨7, "general", 0, 0, []⟩)]⟩ 7 none).2 = [3] ∧
      lookupA (sendToUser (fun ws => ws == 1)
          ⟨[(7, [1, 2, 3])],
            [(1, ⟨7, "general", 0, 0, []⟩), (2, ⟨7, "general", 0, 0, []⟩),
              (3, ⟨7, "general", 0, 0, []⟩)]⟩ 7
          none).1.active_connections 7 = some [2, 3] := by
  constructor
  · rfl
  · rfl

/-! ### Broadcast delivery set (claim C9) -/

theorem fanoutAliased_succ (fails : Nat → Bool) (u fuel i : Nat)
    (st : ManagerState) (acc : List Nat) :
    fanoutAliased fails u (fuel + 1) i st acc =
      (if h : i < ((lookupA st.active_connections u).getD []).length then
        fanoutAliased fails u fuel (i + 1)
          (sendPersonalMessage fails st
            (((lookupA st.active_connections u).getD []).get ⟨i, h⟩)).1
          (acc ++
            if (sendPersonalMessage fails st
                (((lookupA st.active_connections u).getD []).get
                  ⟨i, h⟩)).2 then
              [((lookupA st.active_connections u).getD []).get ⟨i, h⟩]
            else [])
      else (st, acc)) := rfl

theorem fanoutAliased_noFail (u : Nat) :
    ∀ (fuel i : Nat) (st : ManagerState) (acc : List Nat),
      ((lookupA st.active_connections u).getD []).length ≤ fuel + i →
      fanoutAliased noFail u fuel i st acc =
        (st, acc ++ ((lookupA st.active_connections u).getD []).drop i) := by
  intro fuel
  induction fuel with
  | zero =>
    intro i st acc h
    rw [List.drop_eq_nil_of_le (by omega)]
    simp [fanoutAliased]
  | succ fuel ih =>
    intro i st acc h
    rw [fanoutAliased_succ]
    by_cases hi : i < ((lookupA st.active_connections u).getD []).length
    · rw [dif_pos hi]
      have hsend : ∀ w : Nat, sendPersonalMessage noFail st w = (st, true) :=
        fun w => sendPersonalMessage_of_ok st rfl
      simp only [hsend]
      rw [ih (i + 1) st _ (by omega)]
      rw [List.drop_eq_getElem_cons hi]
      simp
    · rw [dif_neg hi]
      rw [List.drop_eq_nil_of_le (by omega)]
      simp

theorem sendToUser_noFail (st : ManagerState) (u : Nat) :
    sendToUser noFail st u none =
      (st, (lookupA st.active_connections u).getD []) := by
  cases hu : lookupA st.active_connections u with
  | none => simp [sendToUser, hu]
  | some lst =>
    have h := fanoutAliased_noFail u lst.length 0 st []
      (by rw [hu]; simp)
    simp only [sendToUser, hu]
    rw [h]
    rw [hu]
    simp

theorem broadcastStep_noFail (exclude : Option Nat) (st : ManagerState)
    (d : List Nat) (u : Nat) :
    broadcastStep noFail exclude (st, d) u =
      (st, d ++ (if skipOf exclude u then []
        else (lookupA st.active_connections u).getD [])) := by
  cases hs : skipOf exclude u with
  | true =>
    simp only [broadcastStep, hs]
    simp
  | false =>
    simp only [broadcastStep, hs]
    simp [sendToUser_noFail]

theorem broadcast_fold_noFail (exclude : Option Nat) (st : ManagerState) :
    ∀ (ks : List Nat) (d : List Nat),
      ks.foldl (broadcastStep noFail exclude) (st, d) =
        (st, d ++ (ks.map (fun u =>
          if skipOf exclude u then []
          else (lookupA st.active_connections u).getD [])).flatten) := by
  intro ks
  induction ks with
  | nil => intro d; simp
  | cons k rest ih =>
    intro d
    simp only [List.foldl_cons, broadcastStep_noFail]
    rw [ih]
    simp

theorem broadcastToAll_noFail (exclude : Option Nat) (st : ManagerState) :
    broadcastToAll noFail st exclude =
      (st, ((st.active_connections.map Prod.fst).map (fun u =>
        if skipOf exclude u then []
        else (lookupA st.active_connections u).getD [])).flatten) := by
  rw [broadcastToAll, broadcast_fold_noFail]
  simp

theorem keys_map_skip (st : ManagerState)
    (hA : NodupKeys st.active_connections) (skipB : Nat → Bool) :
    ∀ l : List (Nat × List Nat), (∀ p ∈ l, p ∈ st.active_connections) →
      ((l.map Prod.fst).map (fun u2 =>
        if skipB u2 then []
        else (lookupA st.active_connections u2).getD [])).flatten =
      ((l.filter (fun p => !skipB p.1)).map Prod.snd).flatten := by
  intro l
  induction l with
  | nil => intro _; rfl
  | cons p rest ih =>
    intro hsub
    have hrest : ∀ q ∈ rest, q ∈ st.active_connections :=
      fun q hq => hsub q (List.mem_cons_of_mem _ hq)
    simp only [List.map_cons, List.flatten_cons]
    cases hs : skipB p.1 with
    | true =>
      rw [if_pos rfl]
      rw [List.filter_cons_of_neg (by simp [hs])]
      simpa using ih hrest
    | false =>
      rw [if_neg (by simp)]
      rw [List.filter_cons_of_pos (by simp [hs])]
      have hp : (lookupA st.active_connections p.1).getD [] = p.2 := by
        rw [lookupA_of_mem hA (hsub p (List.mem_cons_self p rest))]
        rfl
      simp only [List.map_cons, List.flatten_cons, hp]
      rw [ih hrest]

/-- Claim C9 (amended): for every user id `u ≠ 0` the exclusion works as
claimed — broadcast with `exclude_user = u` delivers exactly the
connections of every other user, in registry order, and to none of the
connections of `u` — and with no exclusion every registered connection
receives the message.  (User id `0` is never excluded, because `0` is
falsy in the `if exclude_user and ...` test.) -/
theorem broadcast_excludes_nonzero_user (st : ManagerState) (u : Nat)
    (hu : u ≠ 0) (hcon : Consistent st) :
    (broadcastToAll noFail st (some u)).2 =
        ((st.active_connections.filter (fun p => p.1 != u)).map
            Prod.snd).flatten ∧
      (∀ lst, lookupA st.active_connections u = some lst →
        ∀ ws ∈ lst, ws ∉ (broadcastToAll noFail st (some u)).2) ∧
      (broadcastToAll noFail st none).2 =
        (st.active_connections.map Prod.snd).flatten := by
  obtain ⟨hA, hM, hN, hF, hB⟩ := hcon
  have hdeliv : (broadcastToAll noFail st (some u)).2 =
      ((st.active_connections.filter (fun p => p.1 != u)).map
          Prod.snd).flatten := by
    rw [broadcastToAll_noFail]
    simp only
    rw [keys_map_skip st hA (skipOf (some u)) st.active_connections
      (fun p hp => hp)]
    have hfil : st.active_connections.filter
        (fun p => !skipOf (some u) p.1) =
        st.active_connections.filter (fun p => p.1 != u) := by
      apply List.filter_congr
      intro p _
      have h0 : (u == 0) = false := by simp [hu]
      simp [skipOf, bne, h0]
    rw [hfil]
  refine ⟨hdeliv, ?_, ?_⟩
  · intro lst hlst ws hws hmem
    rw [hdeliv] at hmem
    rcases List.mem_flatten.mp hmem with ⟨l, hl, hwl⟩
    rcases List.mem_map.mp hl with ⟨p, hp, rfl⟩
    have hpmem : p ∈ st.active_connections := List.mem_of_mem_filter hp
    have hpne : p.1 ≠ u := by
      have := List.of_mem_filter hp
      simpa using this
    obtain ⟨q1, hq1, hq11, hq12⟩ := hF p hpmem ws hwl
    obtain ⟨q2, hq2, hq21, hq22⟩ :=
      hF (u, lst) (mem_of_lookupA hlst) ws hws
    have : q1 = q2 := eq_of_mem_nodupKeys hM hq1 hq2 (by rw [hq11, hq21])
    apply hpne
    rw [← hq12, this, hq22]
  · rw [broadcastToAll_noFail]
    simp only
    rw [keys_map_skip st hA (skipOf none) st.active_connections
      (fun p hp => hp)]
    have hfil : st.active_connections.filter (fun p => !skipOf none p.1) =
        st.active_connections := by
      apply List.filter_eq_self.mpr
      intro p _
      simp [skipOf]
    rw [hfil]

theorem broadcast_excludes_nonzero_user_witness :
    (broadcastToAll noFail
        ⟨[(3, [1]), (4, [2])],
          [(1, ⟨3, "general", 0, 0, []⟩), (2, ⟨4, "general", 0, 0, []⟩)]⟩
        (some 3)).2 =
      (((⟨[(3, [1]), (4, [2])],
          [(1, ⟨3, "general", 0, 0, []⟩), (2, ⟨4, "general", 0, 0, []⟩)]⟩ :
            ManagerState).active_connections.filter
          (fun p => p.1 != 3)).map Prod.snd).flatten :=
  (broadcast_excludes_nonzero_user
    ⟨[(3, [1]), (4, [2])],
      [(1, ⟨3, "general", 0, 0, []⟩), (2, ⟨4, "general", 0, 0, []⟩)]⟩
    3 (by decide) (by decide)).1

/-- Claim C9 counterexample: user id 0 is registered with connection 1,
yet broadcast with `exclude_user = 0` still delivers to that connection:
`0` is falsy in the skip test, so the claimed exclusion does not happen
for the registered user id 0. -/
theorem broadcast_exclude_user_zero_still_delivered :
    (broadcastToAll noFail
        ⟨[(0, [1])], [(1, ⟨0, "general", 0, 0, []⟩)]⟩ (some 0)).2 = [1] ∧
      lookupA (⟨[(0, [1])], [(1, ⟨0, "general", 0, 0, []⟩)]⟩ :
          ManagerState).active_connections 0 = some [1] := by
  constructor
  · rfl
  · rfl
